import Mathlib

/-!
Verification of the gym-simulator member registry
(`GymMember` / `Gym` classes, exercise 06, TypeScript).

Modelling conventions:

* TypeScript `number` is modelled as `ℚ` (exact arithmetic; the claims are
  algebraic, not about IEEE rounding).  Member identities are `Nat`.
* The JS `Map<number, GymMember>` is modelled as an insertion-ordered
  association list `List (Nat × GymMember)` with `mapSet` / `mapGet`
  reproducing `Map.prototype.set` / `Map.prototype.get`.
* The JSON document written by `saveToFile` is modelled by `GymData`; its
  `members` field is the JS object `{ [id: number]: MemberData }`, whose
  `for...in` enumeration visits integer-like keys in ascending numeric
  order — hence `sortByKey` in `Gym.toData`.
* File-system effects are explicit inputs: `WriteOutcome` for
  `fs.writeFileSync`, `FileOutcome` for `fs.readFileSync` + `JSON.parse`
  combined.  Methods return the post-state of `this` together with the
  console messages they print, so "does not raise" is witnessed by the
  methods being total functions into plain (non-exceptional) results.
* The wall-clock timestamp computed inside `logWorkout` is passed in as
  the `dateStr` argument (the only nondeterministic input).
-/

namespace GymSim

/-- `interface Workout`: one logged exercise session. -/
structure Workout where
  date : String
  exercise : String
  sets : ℚ
  reps : ℚ
  weight : ℚ
  volume : ℚ
deriving DecidableEq, Repr

/-- `interface MemberData`: saved member data structure. -/
structure MemberData where
  name : String
  membershipId : Nat
  workouts : List Workout
  totalVisits : Nat
deriving DecidableEq, Repr

/-- `class GymMember`: a gym member with workout history. -/
structure GymMember where
  name : String
  membershipId : Nat
  workouts : List Workout
  totalVisits : Nat
deriving DecidableEq, Repr

/-- `new GymMember(name, membershipId)`: empty history, zero visits. -/
def GymMember.make (name : String) (membershipId : Nat) : GymMember :=
  { name := name, membershipId := membershipId, workouts := [], totalVisits := 0 }

/-- `GymMember.logWorkout`: push one record with `volume = sets * reps * weight`
and increment `totalVisits`.  `dateStr` is the timestamp string the method
computes from `new Date()`. -/
def GymMember.logWorkout (m : GymMember) (dateStr exercise : String)
    (sets reps weight : ℚ) : GymMember :=
  let workout : Workout :=
    { date := dateStr, exercise := exercise, sets := sets, reps := reps,
      weight := weight, volume := sets * reps * weight }
  { m with workouts := m.workouts ++ [workout], totalVisits := m.totalVisits + 1 }

/-- `GymMember.getSummary`. -/
def GymMember.getSummary (m : GymMember) : String :=
  if m.workouts.length = 0 then
    m.name ++ " - No workouts logged yet"
  else
    let totalVolume := m.workouts.foldl (fun sum w => sum + w.volume) 0
    m.name ++ " - " ++ toString m.totalVisits ++ " visits - " ++
      toString totalVolume ++ " lbs total volume"

/-- `GymMember.toData`: convert to plain object for JSON saving. -/
def GymMember.toData (m : GymMember) : MemberData :=
  { name := m.name, membershipId := m.membershipId,
    workouts := m.workouts, totalVisits := m.totalVisits }

/-- `GymMember.fromData`: `new GymMember(data.name, data.membershipId)` then
overwrite `workouts` and `totalVisits` from the data. -/
def GymMember.fromData (data : MemberData) : GymMember :=
  { GymMember.make data.name data.membershipId with
    workouts := data.workouts, totalVisits := data.totalVisits }

/-- `interface GymData`: saved gym data structure.  `members` is the JS object
keyed by member id, listed in its `for...in` enumeration order (ascending
numeric keys). -/
structure GymData where
  gymName : String
  nextMemberId : Nat
  members : List (Nat × MemberData)
deriving DecidableEq, Repr

/-- `Map.prototype.get`. -/
def mapGet (l : List (Nat × GymMember)) (k : Nat) : Option GymMember :=
  match l with
  | [] => none
  | (k', v') :: rest => if k' = k then some v' else mapGet rest k

/-- `Map.prototype.set`: replace in place if the key is present, otherwise
append (JS maps preserve insertion order). -/
def mapSet (l : List (Nat × GymMember)) (k : Nat) (v : GymMember) :
    List (Nat × GymMember) :=
  match l with
  | [] => [(k, v)]
  | (k', v') :: rest => if k' = k then (k, v) :: rest else (k', v') :: mapSet rest k v

/-- Insert one keyed entry into a key-sorted list (ascending keys). -/
def insertSorted (p : Nat × MemberData) :
    List (Nat × MemberData) → List (Nat × MemberData)
  | [] => [p]
  | q :: rest => if p.1 ≤ q.1 then p :: q :: rest else q :: insertSorted p rest

/-- Ascending-numeric-key enumeration order of a JS object built from the
given entries (all keys here are integer-like, so `for...in` visits them in
ascending numeric order). -/
def sortByKey (l : List (Nat × MemberData)) : List (Nat × MemberData) :=
  l.foldr insertSorted []

/-- `class Gym`: facility name, member map, next identity. -/
structure Gym where
  name : String
  members : List (Nat × GymMember)
  nextMemberId : Nat
deriving DecidableEq, Repr

/-- `new Gym(name)`: empty map, `nextMemberId = 1`. -/
def Gym.make (name : String) : Gym :=
  { name := name, members := [], nextMemberId := 1 }

/-- `Gym.addMember`: allocate the next id, store a fresh member, return the id
(with the updated gym). -/
def Gym.addMember (g : Gym) (name : String) : Gym × Nat :=
  let memberId := g.nextMemberId
  let member := GymMember.make name memberId
  ({ g with members := mapSet g.members memberId member,
            nextMemberId := memberId + 1 }, memberId)

/-- `Gym.getMember`: `this.members.get(memberId)`. -/
def Gym.getMember (g : Gym) (memberId : Nat) : Option GymMember :=
  mapGet g.members memberId

/-- `Gym.getAllMembers`: `Array.from(this.members.values())`. -/
def Gym.getAllMembers (g : Gym) : List GymMember :=
  g.members.map Prod.snd

/-- The `GymData` document `saveToFile` serializes: `membersObj` is built by
assigning `membersObj[id] = member.toData()` over the map, and as a JS object
with integer-like keys it enumerates in ascending key order. -/
def Gym.toData (g : Gym) : GymData :=
  { gymName := g.name, nextMemberId := g.nextMemberId,
    members := sortByKey (g.members.map (fun p => (p.1, p.2.toData))) }

/-- Outcome of `fs.writeFileSync`. -/
inductive WriteOutcome where
  | ok
  | err (msg : String)
deriving DecidableEq, Repr

/-- Combined outcome of `fs.readFileSync` + `JSON.parse`:
the file is missing (`ENOENT`), the read fails otherwise, the parse fails,
or both succeed yielding a document. -/
inductive FileOutcome where
  | enoent
  | readErr (msg : String)
  | parseErr (msg : String)
  | content (d : GymData)
deriving DecidableEq, Repr

/-- `Gym.saveToFile`: serialize `this` and attempt the write inside
`try/catch`.  Returns the post-state of `this`, the document actually written
(`none` if the write failed), and the console messages. -/
def Gym.saveToFile (g : Gym) (filename : String) (w : WriteOutcome) :
    Gym × Option GymData × List String :=
  let data := g.toData
  match w with
  | .ok => (g, some data, ["✓ Gym data saved to " ++ filename])
  | .err msg => (g, none, ["✗ Error saving file: " ++ msg])

/-- `Gym.loadFromFile`: on success replace name, counter and map (the map is
cleared and refilled by `this.members.set(parseInt(idStr), fromData(...))` in
enumeration order); on `ENOENT` print "starting fresh", on any other failure
print a generic error; never raises.  Returns the post-state of `this` and
the console messages. -/
def Gym.loadFromFile (g : Gym) (filename : String) (f : FileOutcome) :
    Gym × List String :=
  match f with
  | .enoent => (g, ["✗ File " ++ filename ++ " not found. Starting fresh!"])
  | .readErr msg => (g, ["✗ Error loading file: " ++ msg])
  | .parseErr msg => (g, ["✗ Error loading file: " ++ msg])
  | .content d =>
    let newMembers :=
      d.members.foldl (fun acc p => mapSet acc p.1 (GymMember.fromData p.2)) []
    ({ name := d.gymName, members := newMembers, nextMemberId := d.nextMemberId },
     ["✓ Loaded gym data from " ++ filename,
      "  Gym: " ++ d.gymName ++ " with " ++ toString newMembers.length ++ " members"])

/-- The caller-side pattern for logging a workout through the registry
(`const m = gym.getMember(id); if (m) { m.logWorkout(...) }`): look the member
up, and if present mutate it in place — `getMember` returns a reference into
the map, so the mutation is an in-place update of the stored entry.  Returns
the post-state and whether the member was found. -/
def Gym.logWorkout (g : Gym) (memberId : Nat) (dateStr exercise : String)
    (sets reps weight : ℚ) : Gym × Bool :=
  match mapGet g.members memberId with
  | none => (g, false)
  | some m =>
    ({ g with members :=
        mapSet g.members memberId (m.logWorkout dateStr exercise sets reps weight) },
     true)

/-- Fold a list of `addMember` calls, collecting the returned identities. -/
def Gym.addMembers (g : Gym) : List String → Gym × List Nat
  | [] => (g, [])
  | nm :: rest =>
    let step := g.addMember nm
    let tail := step.1.addMembers rest
    (tail.1, step.2 :: tail.2)

/-- States of a registry reachable in a closed run of the program: starting
from `new Gym(name)` and applying member additions, workout logging, saves
(which do not touch `this`), and loads whose file was either previously
written by `saveToFile` of some reachable registry or failed to read/parse. -/
inductive Reachable : Gym → Prop
  | make (name : String) : Reachable (Gym.make name)
  | addMember (g : Gym) (nm : String) :
      Reachable g → Reachable (g.addMember nm).1
  | logWorkout (g : Gym) (memberId : Nat) (d e : String) (s r w : ℚ) :
      Reachable g → Reachable (g.logWorkout memberId d e s r w).1
  | save (g : Gym) (fn : String) (w : WriteOutcome) :
      Reachable g → Reachable (g.saveToFile fn w).1
  | loadSaved (g g' : Gym) (fn : String) :
      Reachable g → Reachable g' →
      Reachable (g.loadFromFile fn (.content g'.toData)).1
  | loadEnoent (g : Gym) (fn : String) :
      Reachable g → Reachable (g.loadFromFile fn .enoent).1
  | loadReadErr (g : Gym) (fn msg : String) :
      Reachable g → Reachable (g.loadFromFile fn (.readErr msg)).1
  | loadParseErr (g : Gym) (fn msg : String) :
      Reachable g → Reachable (g.loadFromFile fn (.parseErr msg)).1

/-- Registry well-formedness: every stored member's visit counter matches its
workout count, every key is below the next identity, and keys are listed in
strictly ascending order. -/
def gymWellFormed (g : Gym) : Prop :=
  (∀ p ∈ g.members, p.2.totalVisits = p.2.workouts.length) ∧
  (∀ p ∈ g.members, p.1 < g.nextMemberId) ∧
  List.Pairwise (· < ·) (g.members.map Prod.fst)

/-- Demo registry before any workout: the example run's two `addMember` calls. -/
def gymPre : Gym :=
  (((Gym.make "Iron Paradise").addMember "Alex Johnson").1.addMember "Sam Smith").1

/-- The member stored for id 1 in `gymPre`. -/
def mAlex : GymMember := GymMember.make "Alex Johnson" 1

/-- Demo registry after member 1 logs one bench-press workout. -/
def gymDemo : Gym :=
  (gymPre.logWorkout 1 "2026-10-11 10:00" "Bench Press" 3 10 135).1

/-! ### Lemmas about the `Map` model -/

theorem mapGet_mapSet_self (l : List (Nat × GymMember)) (k : Nat) (v : GymMember) :
    mapGet (mapSet l k v) k = some v := by
  induction l with
  | nil => simp [mapSet, mapGet]
  | cons p rest ih =>
    by_cases h : p.1 = k
    · simp [mapSet, mapGet, h]
    · simp [mapSet, mapGet, h, ih]

theorem mapGet_mapSet_ne (l : List (Nat × GymMember)) (k k' : Nat) (v : GymMember)
    (h : k' ≠ k) : mapGet (mapSet l k v) k' = mapGet l k' := by
  have h' : ¬(k = k') := fun e => h e.symm
  induction l with
  | nil => simp [mapSet, mapGet, h']
  | cons p rest ih =>
    by_cases hp : p.1 = k
    · subst hp
      simp [mapSet, mapGet, h']
    · by_cases hp' : p.1 = k'
      · simp [mapSet, mapGet, hp, hp', h, h']
      · simp [mapSet, mapGet, hp, hp', ih]

theorem mem_of_mapGet_eq_some (l : List (Nat × GymMember)) (k : Nat)
    (v : GymMember) : mapGet l k = some v → (k, v) ∈ l := by
  induction l with
  | nil => intro h; simp [mapGet] at h
  | cons p rest ih =>
    intro h
    by_cases hp : p.1 = k
    · simp [mapGet, hp] at h
      exact List.mem_cons.mpr (Or.inl (by rw [← hp, ← h]))
    · simp [mapGet, hp] at h
      exact List.mem_cons_of_mem _ (ih h)

theorem mapSet_eq_append (l : List (Nat × GymMember)) (k : Nat) (v : GymMember) :
    (∀ p ∈ l, p.1 ≠ k) → mapSet l k v = l ++ [(k, v)] := by
  induction l with
  | nil => intro _; simp [mapSet]
  | cons p rest ih =>
    intro h
    have hp : p.1 ≠ k := h p (List.mem_cons_self _ _)
    simp only [mapSet, if_neg hp, List.cons_append]
    rw [ih (fun q hq => h q (List.mem_cons_of_mem _ hq))]

theorem mem_mapSet (l : List (Nat × GymMember)) (k : Nat) (v : GymMember)
    (p : Nat × GymMember) : p ∈ mapSet l k v → p = (k, v) ∨ p ∈ l := by
  induction l with
  | nil => intro h; simpa [mapSet] using h
  | cons q rest ih =>
    intro h
    by_cases hq : q.1 = k
    · simp only [mapSet, if_pos hq] at h
      rcases List.mem_cons.mp h with h | h
      · exact Or.inl h
      · exact Or.inr (List.mem_cons_of_mem _ h)
    · simp only [mapSet, if_neg hq] at h
      rcases List.mem_cons.mp h with h | h
      · exact Or.inr (h ▸ List.mem_cons_self _ _)
      · rcases ih h with h' | h'
        · exact Or.inl h'
        · exact Or.inr (List.mem_cons_of_mem _ h')

theorem keys_mapSet_of_get (l : List (Nat × GymMember)) (k : Nat)
    (m v : GymMember) : mapGet l k = some m →
    (mapSet l k v).map Prod.fst = l.map Prod.fst := by
  induction l with
  | nil => intro h; simp [mapGet] at h
  | cons p rest ih =>
    intro h
    by_cases hp : p.1 = k
    · simp [mapSet, hp]
    · simp only [mapGet, if_neg hp] at h
      simp [mapSet, hp, ih h]

/-! ### Lemmas about the JS-object enumeration order -/

theorem mem_insertSorted (p q : Nat × MemberData) (l : List (Nat × MemberData)) :
    p ∈ insertSorted q l ↔ p = q ∨ p ∈ l := by
  induction l with
  | nil => simp [insertSorted]
  | cons r rest ih =>
    by_cases h : q.1 ≤ r.1
    · simp only [insertSorted, if_pos h, List.mem_cons]
    · simp only [insertSorted, if_neg h, List.mem_cons, ih]
      tauto

theorem mem_sortByKey (p : Nat × MemberData) (l : List (Nat × MemberData)) :
    p ∈ sortByKey l ↔ p ∈ l := by
  induction l with
  | nil => simp [sortByKey]
  | cons q rest ih =>
    show p ∈ insertSorted q (sortByKey rest) ↔ _
    rw [mem_insertSorted, ih, List.mem_cons]

theorem sortByKey_of_sorted (l : List (Nat × MemberData)) :
    List.Pairwise (· < ·) (l.map Prod.fst) → sortByKey l = l := by
  induction l with
  | nil => intro _; rfl
  | cons p rest ih =>
    intro h
    rw [List.map_cons, List.pairwise_cons] at h
    obtain ⟨hhead, htail⟩ := h
    show insertSorted p (sortByKey rest) = p :: rest
    rw [ih htail]
    cases rest with
    | nil => rfl
    | cons q rest' =>
      have hle : p.1 ≤ q.1 := le_of_lt (hhead q.1 (by simp))
      simp [insertSorted, hle]

/-- Refilling a cleared map from distinct-keyed entries (as `loadFromFile`
does) produces exactly those entries, in order. -/
theorem foldl_mapSet_fromData (l : List (Nat × MemberData)) :
    ∀ acc : List (Nat × GymMember),
    (l.map Prod.fst).Nodup → (∀ p ∈ l, ∀ q ∈ acc, q.1 ≠ p.1) →
    l.foldl (fun acc p => mapSet acc p.1 (GymMember.fromData p.2)) acc
      = acc ++ l.map (fun p => (p.1, GymMember.fromData p.2)) := by
  induction l with
  | nil => intro acc _ _; simp
  | cons p rest ih =>
    intro acc hnd hdisj
    rw [List.map_cons, List.nodup_cons] at hnd
    obtain ⟨hnotin, hnd'⟩ := hnd
    simp only [List.foldl_cons]
    rw [mapSet_eq_append acc p.1 (GymMember.fromData p.2)
      (fun q hq => hdisj p (List.mem_cons_self _ _) q hq)]
    rw [ih (acc ++ [(p.1, GymMember.fromData p.2)]) hnd' ?_]
    · simp
    · intro r hr q hq
      rcases List.mem_append.mp hq with hq | hq
      · exact hdisj r (List.mem_cons_of_mem _ hr) q hq
      · rcases List.mem_singleton.mp hq with rfl
        intro hcontra
        exact hnotin (hcontra ▸ List.mem_map_of_mem Prod.fst hr)

theorem fromData_toData (m : GymMember) : GymMember.fromData m.toData = m := rfl

/-- Loading the document serialized from a key-sorted registry reproduces
that registry exactly, whatever the pre-state of the loading registry. -/
theorem loadFromFile_toData (g pre : Gym) (fn : String)
    (hsorted : List.Pairwise (· < ·) (g.members.map Prod.fst)) :
    (pre.loadFromFile fn (.content g.toData)).1 = g := by
  have hkeys : ((g.members.map fun p => (p.1, p.2.toData)).map Prod.fst)
      = g.members.map Prod.fst := by
    rw [List.map_map]
    rfl
  have hsorted' :
      List.Pairwise (· < ·) ((g.members.map fun p => (p.1, p.2.toData)).map Prod.fst) := by
    rw [hkeys]; exact hsorted
  have hcollapse : (Gym.toData g).members = g.members.map fun p => (p.1, p.2.toData) :=
    sortByKey_of_sorted _ hsorted'
  have hnd : ((Gym.toData g).members.map Prod.fst).Nodup := by
    rw [hcollapse, hkeys]
    exact hsorted.imp (fun h => Nat.ne_of_lt h)
  have hunfold : (pre.loadFromFile fn (.content g.toData)).1 =
      { name := (Gym.toData g).gymName,
        members := (Gym.toData g).members.foldl
          (fun acc p => mapSet acc p.1 (GymMember.fromData p.2)) [],
        nextMemberId := (Gym.toData g).nextMemberId } := rfl
  rw [hunfold]
  rw [foldl_mapSet_fromData _ [] hnd (by intro p _ q hq; simp at hq)]
  rw [hcollapse, List.nil_append, List.map_map]
  have hid : ((fun p => (p.1, GymMember.fromData p.2)) ∘
      (fun p : Nat × GymMember => (p.1, p.2.toData))) = fun p => p := by
    funext p
    rfl
  rw [hid, List.map_id']
  rfl

/-! ### The registry invariant holds in every reachable state -/

theorem wellFormed_addMember (g : Gym) (nm : String) (h : gymWellFormed g) :
    gymWellFormed (g.addMember nm).1 := by
  obtain ⟨h1, h2, h3⟩ := h
  have happ : mapSet g.members g.nextMemberId (GymMember.make nm g.nextMemberId)
      = g.members ++ [(g.nextMemberId, GymMember.make nm g.nextMemberId)] :=
    mapSet_eq_append _ _ _ (fun p hp => Nat.ne_of_lt (h2 p hp))
  have hshape : (g.addMember nm).1 =
      { g with members := g.members ++ [(g.nextMemberId, GymMember.make nm g.nextMemberId)],
               nextMemberId := g.nextMemberId + 1 } := by
    rw [← happ]
    rfl
  rw [hshape]
  refine ⟨?_, ?_, ?_⟩
  · intro p hp
    rcases List.mem_append.mp hp with hp | hp
    · exact h1 p hp
    · rcases List.mem_singleton.mp hp with rfl
      rfl
  · intro p hp
    rcases List.mem_append.mp hp with hp | hp
    · exact Nat.lt_trans (h2 p hp) (Nat.lt_succ_self _)
    · rcases List.mem_singleton.mp hp with rfl
      exact Nat.lt_succ_self _
  · rw [List.map_append]
    rw [List.pairwise_append]
    refine ⟨h3, List.pairwise_singleton _ _, ?_⟩
    intro a ha b hb
    simp only [List.map_cons, List.map_nil, List.mem_singleton] at hb
    subst hb
    obtain ⟨p, hp, rfl⟩ := List.mem_map.mp ha
    exact h2 p hp

theorem wellFormed_logWorkout (g : Gym) (memberId : Nat) (d e : String)
    (s r w : ℚ) (h : gymWellFormed g) :
    gymWellFormed (g.logWorkout memberId d e s r w).1 := by
  obtain ⟨h1, h2, h3⟩ := h
  cases hm : mapGet g.members memberId with
  | none =>
    have : (g.logWorkout memberId d e s r w).1 = g := by
      simp [Gym.logWorkout, hm]
    rw [this]
    exact ⟨h1, h2, h3⟩
  | some m =>
    have hmem : (memberId, m) ∈ g.members := mem_of_mapGet_eq_some _ _ _ hm
    have hshape : (g.logWorkout memberId d e s r w).1 =
        { g with members := (mapSet g.members memberId
            (m.logWorkout d e s r w)) } := by
      simp [Gym.logWorkout, hm]
    rw [hshape]
    refine ⟨?_, ?_, ?_⟩
    · intro p hp
      rcases mem_mapSet _ _ _ _ hp with rfl | hp
      · show (m.logWorkout d e s r w).totalVisits
            = (m.logWorkout d e s r w).workouts.length
        have hm1 : m.totalVisits = m.workouts.length := h1 (memberId, m) hmem
        simp [GymMember.logWorkout, hm1]
      · exact h1 p hp
    · intro p hp
      rcases mem_mapSet _ _ _ _ hp with rfl | hp
      · exact h2 (memberId, m) hmem
      · exact h2 p hp
    · rw [keys_mapSet_of_get _ _ m _ hm]
      exact h3

theorem reachable_wellFormed (g : Gym) (h : Reachable g) : gymWellFormed g := by
  induction h with
  | make name =>
    refine ⟨?_, ?_, ?_⟩ <;> simp [Gym.make]
  | addMember g nm _ ih => exact wellFormed_addMember g nm ih
  | logWorkout g memberId d e s r w _ ih =>
    exact wellFormed_logWorkout g memberId d e s r w ih
  | save g fn w _ ih =>
    cases w <;> exact ih
  | loadSaved g g' fn _ _ ihg ihg' =>
    rw [loadFromFile_toData g' g fn ihg'.2.2]
    exact ihg'
  | loadEnoent g fn _ ih => exact ih
  | loadReadErr g fn msg _ ih => exact ih
  | loadParseErr g fn msg _ ih => exact ih

/-! ### Remaining helper lemmas -/

theorem foldl_add_volume (l : List Workout) (a : ℚ) :
    l.foldl (fun sum w => sum + w.volume) a = a + (l.map Workout.volume).sum := by
  induction l generalizing a with
  | nil => simp
  | cons w rest ih => simp [ih, add_assoc]

theorem addMembers_ids (names : List String) : ∀ g : Gym,
    (g.addMembers names).2 = List.range' g.nextMemberId names.length := by
  induction names with
  | nil => intro g; rfl
  | cons nm rest ih =>
    intro g
    show (g.addMember nm).2 :: ((g.addMember nm).1.addMembers rest).2 = _
    rw [ih]
    have h1 : (g.addMember nm).2 = g.nextMemberId := rfl
    have h2 : (g.addMember nm).1.nextMemberId = g.nextMemberId + 1 := rfl
    rw [h1, h2, List.length_cons, List.range'_succ]

theorem gymPre_reachable : Reachable gymPre :=
  Reachable.addMember _ _ (Reachable.addMember _ _ (Reachable.make _))

theorem gymDemo_reachable : Reachable gymDemo :=
  Reachable.logWorkout _ _ _ _ _ _ _ gymPre_reachable

/-! ### Claims -/

/-- C1: for every reachable registry state, `saveToFile` followed by
`loadFromFile` of the written document into a freshly constructed registry
yields a registry whose facility name, next-identity counter, and member
mapping (with every member's name, identity, visit counter, and ordered
workout history) equal those of the original registry. -/
theorem save_load_roundtrip (g : Gym) (fn fn2 nm : String) (d : GymData)
    (hg : Reachable g) (hw : (g.saveToFile fn .ok).2.1 = some d) :
    ((Gym.make nm).loadFromFile fn2 (.content d)).1 = g := by
  have hsave : (g.saveToFile fn .ok).2.1 = some g.toData := rfl
  have hd : d = g.toData := Option.some.inj (hsave.symm.trans hw).symm
  rw [hd]
  exact loadFromFile_toData g (Gym.make nm) fn2 (reachable_wellFormed g hg).2.2

/-- Witness for C1 at the demo registry. -/
theorem save_load_roundtrip_witness :
    (gymDemo.saveToFile "gym_data.json" .ok).2.1 = some gymDemo.toData ∧
    ((Gym.make "Fresh").loadFromFile "gym_data.json"
      (.content gymDemo.toData)).1 = gymDemo :=
  ⟨rfl, save_load_roundtrip gymDemo "gym_data.json" "gym_data.json" "Fresh"
    gymDemo.toData gymDemo_reachable rfl⟩

/-- C2: one `logWorkout` call on a present member increments that member's
visit counter by exactly 1, appends exactly one record (of volume
`sets * reps * weight`) at the end of its workout list, changes no other
field of that member, and leaves every other member, the facility name and
the identity counter untouched. -/
theorem logWorkout_member_update (g : Gym) (memberId : Nat) (m : GymMember)
    (d e : String) (s r w : ℚ) (h : g.getMember memberId = some m) :
    (g.logWorkout memberId d e s r w).2 = true ∧
    (g.logWorkout memberId d e s r w).1.getMember memberId =
      some { m with
        workouts := m.workouts ++
          [{ date := d, exercise := e, sets := s, reps := r, weight := w,
             volume := s * r * w }],
        totalVisits := m.totalVisits + 1 } ∧
    (∀ j, j ≠ memberId →
      (g.logWorkout memberId d e s r w).1.getMember j = g.getMember j) ∧
    (g.logWorkout memberId d e s r w).1.name = g.name ∧
    (g.logWorkout memberId d e s r w).1.nextMemberId = g.nextMemberId := by
  have hm : mapGet g.members memberId = some m := h
  have hshape : g.logWorkout memberId d e s r w =
      ({ g with members := (mapSet g.members memberId
          (m.logWorkout d e s r w)) }, true) := by
    simp [Gym.logWorkout, hm]
  rw [hshape]
  refine ⟨rfl, ?_, ?_, rfl, rfl⟩
  · show mapGet (mapSet g.members memberId (m.logWorkout d e s r w)) memberId = _
    rw [mapGet_mapSet_self]
    rfl
  · intro j hj
    show mapGet (mapSet g.members memberId (m.logWorkout d e s r w)) j
        = mapGet g.members j
    exact mapGet_mapSet_ne _ _ _ _ hj

/-- Witness for C2 at the demo registry. -/
theorem logWorkout_member_update_witness :
    (gymPre.logWorkout 1 "2026-10-11 10:00" "Bench Press" 3 10 135).2 = true ∧
    (gymPre.logWorkout 1 "2026-10-11 10:00" "Bench Press" 3 10 135).1.getMember 1 =
      some { mAlex with
        workouts := mAlex.workouts ++
          [{ date := "2026-10-11 10:00", exercise := "Bench Press", sets := 3,
             reps := 10, weight := 135, volume := 3 * 10 * 135 }],
        totalVisits := mAlex.totalVisits + 1 } ∧
    (gymPre.logWorkout 1 "2026-10-11 10:00" "Bench Press" 3 10 135).1.getMember 2
      = gymPre.getMember 2 :=
  have t := logWorkout_member_update gymPre 1 mAlex "2026-10-11 10:00"
    "Bench Press" 3 10 135 rfl
  ⟨t.1, t.2.1, t.2.2.1 2 (by decide)⟩

/-- C3: `loadFromFile` never raises (it is a total function into plain
results): on a missing file it leaves the registry unchanged and prints the
"starting fresh" message; on any other read or parse failure it leaves the
registry unchanged and prints the generic error message. -/
theorem loadFromFile_failure_behaviour (g : Gym) (fn msg : String) :
    g.loadFromFile fn .enoent
      = (g, ["✗ File " ++ fn ++ " not found. Starting fresh!"]) ∧
    g.loadFromFile fn (.readErr msg) = (g, ["✗ Error loading file: " ++ msg]) ∧
    g.loadFromFile fn (.parseErr msg) = (g, ["✗ Error loading file: " ++ msg]) :=
  ⟨rfl, rfl, rfl⟩

/-- C4: in every reachable registry state, every stored member's visit
counter equals the number of records in its workout list. -/
theorem visit_counter_eq_workout_count (g : Gym) (k : Nat) (m : GymMember)
    (hg : Reachable g) (hm : (k, m) ∈ g.members) :
    m.totalVisits = m.workouts.length :=
  (reachable_wellFormed g hg).1 (k, m) hm

/-- Witness for C4 at the demo registry (member 2). -/
theorem visit_counter_eq_workout_count_witness :
    (GymMember.make "Sam Smith" 2).totalVisits
      = (GymMember.make "Sam Smith" 2).workouts.length :=
  visit_counter_eq_workout_count gymDemo 2 (GymMember.make "Sam Smith" 2)
    gymDemo_reachable (by with_unfolding_all decide)

/-- C5: in every reachable registry state, the next-identity counter is
strictly greater than every identity key present in the member mapping. -/
theorem nextMemberId_gt_member_keys (g : Gym) (k : Nat) (m : GymMember)
    (hg : Reachable g) (hm : (k, m) ∈ g.members) : k < g.nextMemberId :=
  (reachable_wellFormed g hg).2.1 (k, m) hm

/-- Witness for C5 at the demo registry (member 2, counter 3). -/
theorem nextMemberId_gt_member_keys_witness : 2 < gymDemo.nextMemberId :=
  nextMemberId_gt_member_keys gymDemo 2 (GymMember.make "Sam Smith" 2)
    gymDemo_reachable (by with_unfolding_all decide)

/-- C6: `getSummary` of a member with an empty workout list is the
"no workouts" message; otherwise it is the message carrying the member's
visit count and the exact sum of the volumes of all recorded workouts
(`getSummary` is a pure function of the member). -/
theorem getSummary_characterization (m : GymMember) :
    (m.workouts = [] → m.getSummary = m.name ++ " - No workouts logged yet") ∧
    (m.workouts ≠ [] → m.getSummary =
      m.name ++ " - " ++ toString m.totalVisits ++ " visits - " ++
        toString ((m.workouts.map Workout.volume).sum) ++ " lbs total volume") := by
  constructor
  · intro h
    simp [GymMember.getSummary, h]
  · intro h
    have hlen : ¬ m.workouts.length = 0 := by
      simpa [List.length_eq_zero] using h
    simp only [GymMember.getSummary, if_neg hlen]
    rw [foldl_add_volume, zero_add]

/-- Witness for C6: an empty-history member and a one-workout member. -/
theorem getSummary_characterization_witness :
    (GymMember.make "Sam Smith" 2).getSummary = "Sam Smith - No workouts logged yet" ∧
    (mAlex.logWorkout "2026-10-11 10:00" "Bench Press" 3 10 135).getSummary
      = "Alex Johnson - 1 visits - 4050 lbs total volume" := by
  constructor
  · have t := (getSummary_characterization (GymMember.make "Sam Smith" 2)).1 rfl
    exact t.trans (by with_unfolding_all rfl)
  · have t := (getSummary_characterization
      (mAlex.logWorkout "2026-10-11 10:00" "Bench Press" 3 10 135)).2
      (by with_unfolding_all decide)
    exact t.trans (by with_unfolding_all rfl)

/-- C7: along any sequence of `addMember` calls the returned identities are
`nextMemberId, nextMemberId+1, ...` — strictly increasing, never repeated —
and from a fresh registry the n-th call returns n (the list is `[1..n]`). -/
theorem addMember_identities (g : Gym) (names : List String) (nm : String) :
    (g.addMembers names).2 = List.range' g.nextMemberId names.length ∧
    List.Pairwise (· < ·) (g.addMembers names).2 ∧
    ((g.addMembers names).2).Nodup ∧
    ((Gym.make nm).addMembers names).2 = List.range' 1 names.length := by
  have h := addMembers_ids names g
  have hp : List.Pairwise (· < ·) (g.addMembers names).2 := by
    rw [h]
    exact List.pairwise_lt_range' _ _
  exact ⟨h, hp, hp.imp (fun hlt => Nat.ne_of_lt hlt),
    addMembers_ids names (Gym.make nm)⟩

/-- C8: `saveToFile` never raises (it is a total function into plain
results); on success it writes the serialized registry and prints the saved
message, on failure it writes nothing and prints the error message, and the
registry's in-memory state is returned unchanged in both cases. -/
theorem saveToFile_characterization (g : Gym) (fn msg : String) :
    g.saveToFile fn .ok = (g, some g.toData, ["✓ Gym data saved to " ++ fn]) ∧
    g.saveToFile fn (.err msg) = (g, none, ["✗ Error saving file: " ++ msg]) :=
  ⟨rfl, rfl⟩

/-- C9: the registry-level workout-logging operation first looks the member
up: when the identity is absent it signals member-not-found and the registry
is unchanged; only when the member is present does it append the record and
update the map. -/
theorem logWorkout_lookup_first (g : Gym) (memberId : Nat) (d e : String)
    (s r w : ℚ) :
    (g.getMember memberId = none → g.logWorkout memberId d e s r w = (g, false)) ∧
    (∀ m, g.getMember memberId = some m →
      g.logWorkout memberId d e s r w =
        ({ g with members := (mapSet g.members memberId
            (m.logWorkout d e s r w)) }, true)) := by
  constructor
  · intro h
    simp [Gym.logWorkout, show mapGet g.members memberId = none from h]
  · intro m h
    simp [Gym.logWorkout, show mapGet g.members memberId = some m from h]

/-- Witness for C9: logging against the absent identity 99 is refused and
leaves the demo registry unchanged. -/
theorem logWorkout_lookup_first_witness :
    gymPre.logWorkout 99 "2026-10-11 10:00" "Bench Press" 3 10 135
      = (gymPre, false) :=
  (logWorkout_lookup_first gymPre 99 "2026-10-11 10:00" "Bench Press" 3 10 135).1 rfl

/-- C10: a workout logged through the member reference returned by
`getMember` is an in-place update of the stored entry: it is visible in
every subsequent `getMember` and `getAllMembers` result and is included in
the document a subsequent `saveToFile` writes. -/
theorem getMember_reference_semantics (g : Gym) (memberId : Nat)
    (m : GymMember) (d e : String) (s r w : ℚ) (fn : String)
    (h : g.getMember memberId = some m) :
    (g.logWorkout memberId d e s r w).1.getMember memberId
      = some (m.logWorkout d e s r w) ∧
    m.logWorkout d e s r w ∈ (g.logWorkout memberId d e s r w).1.getAllMembers ∧
    ((g.logWorkout memberId d e s r w).1.saveToFile fn .ok).2.1
      = some ((g.logWorkout memberId d e s r w).1.toData) ∧
    (memberId, (m.logWorkout d e s r w).toData) ∈
      ((g.logWorkout memberId d e s r w).1.toData).members := by
  have hm : mapGet g.members memberId = some m := h
  have hshape : (g.logWorkout memberId d e s r w).1 =
      { g with members := (mapSet g.members memberId
          (m.logWorkout d e s r w)) } := by
    simp [Gym.logWorkout, hm]
  have hmem : (memberId, m.logWorkout d e s r w) ∈
      mapSet g.members memberId (m.logWorkout d e s r w) :=
    mem_of_mapGet_eq_some _ _ _ (mapGet_mapSet_self _ _ _)
  rw [hshape]
  refine ⟨mapGet_mapSet_self _ _ _, ?_, rfl, ?_⟩
  · exact List.mem_map_of_mem Prod.snd hmem
  · show (memberId, (m.logWorkout d e s r w).toData) ∈
      sortByKey ((mapSet g.members memberId (m.logWorkout d e s r w)).map
        (fun p => (p.1, p.2.toData)))
    rw [mem_sortByKey]
    exact List.mem_map.mpr ⟨(memberId, m.logWorkout d e s r w), hmem, rfl⟩

/-- Witness for C10 at the demo registry. -/
theorem getMember_reference_semantics_witness :
    (gymPre.logWorkout 1 "2026-10-11 10:00" "Bench Press" 3 10 135).1.getMember 1
      = some (mAlex.logWorkout "2026-10-11 10:00" "Bench Press" 3 10 135) ∧
    mAlex.logWorkout "2026-10-11 10:00" "Bench Press" 3 10 135 ∈
      (gymPre.logWorkout 1 "2026-10-11 10:00" "Bench Press" 3 10 135).1.getAllMembers ∧
    (1, (mAlex.logWorkout "2026-10-11 10:00" "Bench Press" 3 10 135).toData) ∈
      ((gymPre.logWorkout 1 "2026-10-11 10:00" "Bench Press" 3 10 135).1.toData).members :=
  have t := getMember_reference_semantics gymPre 1 mAlex "2026-10-11 10:00"
    "Bench Press" 3 10 135 "gym_data.json" rfl
  ⟨t.1, t.2.1, t.2.2.2⟩

end GymSim
